import Mathlib

/-
Verification of the interbank-contagion stress tester (src/app.js).

The engine is embedded shallowly: JavaScript numbers become exact
rationals, the mutable node array becomes a `List Bank` threaded through
explicit folds, and every call to `Math.random()` / `d3.shuffle`
becomes an explicit input (a function or list supplied to the
definition), so each run is a pure function of the network, the shock
and its random draws.
-/

namespace StressTester

/-- Source constant `MACRO_LOSS_FACTOR = 0.20`. -/
def ECON_LOSS_FACTOR : ℚ := 1/5

/-- Source constant `MIN_CAPITAL_RATIO = 0.08`. -/
def CAPITAL_RATIO_MIN : ℚ := 2/25

/-- Source constant `MAX_CAPITAL_RATIO = 0.15`. -/
def CAPITAL_RATIO_MAX : ℚ := 3/20

def ASSETS_MIN : ℚ := 1000

def ASSETS_MAX : ℚ := 5000

def DEBT_RANK_TOLERANCE : ℚ := 1/10000

def MAX_ITERATIONS : ℕ := 100

/-- Source utility `clamp(num, min, max) = Math.min(Math.max(num, min), max)`. -/
def clamp (num lo hi : ℚ) : ℚ := min (max num lo) hi

/-- One bank node, with the fields the source stores on each node object. -/
structure Bank where
  id : ℕ
  name : String
  A : ℚ
  E_initial : ℚ
  E : ℚ
  L : ℚ
  isFailed : Bool
  debtRank : ℚ
  stressLevel : ℕ
  L_interbank : ℚ
  A_interbank : ℚ
  A_external : ℚ
  deriving DecidableEq

instance : Inhabited Bank :=
  ⟨⟨0, "", 0, 0, 0, 0, false, 0, 0, 0, 0, 0⟩⟩

/-- The dense adjacency matrix `adj[i][j]` = liability owed by debtor i to creditor j. -/
abbrev Adj := List (List ℚ)

def adjGet (adj : Adj) (i j : ℕ) : ℚ := (adj.getD i []).getD j 0

/-- Sum of row `i` of the adjacency matrix over columns `0..n-1`. -/
def rowSum (adj : Adj) (n i : ℕ) : ℚ :=
  ((List.range n).map (fun j => adjGet adj i j)).sum

/-- Column sum `Σ_i adj[i][j]`, the interbank assets of creditor `j`. -/
def colSum (adj : Adj) (n j : ℕ) : ℚ :=
  ((List.range n).map (fun i => adjGet adj i j)).sum

/-- The random draws consumed by `generateNetwork`: one asset and one
capital-ratio draw per bank, one interbank-liability-fraction draw and one
creditor-count draw per debtor, one share draw per (debtor, chosen-creditor
position), the shuffled order of potential creditors per debtor
(`d3.shuffle(potentialCreditors)`), and the shuffled name pool. -/
structure GenRand where
  assetDraw : ℕ → ℚ
  ratioDraw : ℕ → ℚ
  iblDraw : ℕ → ℚ
  numDraw : ℕ → ℚ
  shareDraw : ℕ → ℕ → ℚ
  creditorOrder : ℕ → List ℕ
  names : List String

/-- Step 1 of `generateNetwork`: one bank with randomized balance sheet.
`name` reproduces `shuffledNames[i] || Bank ${i+1}` (an absent or empty
string falls back). -/
def mkBank (r : GenRand) (i : ℕ) : Bank :=
  let totalAssets := r.assetDraw i * ( ASSETS_MAX - ASSETS_MIN) + ASSETS_MIN
  let capitalRatio := r.ratioDraw i * ( CAPITAL_RATIO_MAX - CAPITAL_RATIO_MIN) + CAPITAL_RATIO_MIN
  let e := totalAssets * capitalRatio
  let nm := r.names.getD i ""
  { id := i
    name := if nm = "" then "Bank " ++ toString (i + 1) else nm
    A := totalAssets
    E_initial := e
    E := e
    L := totalAssets - e
    isFailed := false
    debtRank := 0
    stressLevel := 0
    L_interbank := 0
    A_interbank := 0
    A_external := 0 }

/-- Source expression `totalIBL = debtor.L * (0.15 + Math.random() * 0.15)`. -/
def totalIBLOf (r : GenRand) (d : ℕ) (liab : ℚ) : ℚ :=
  liab * (3/20 + r.iblDraw d * (3/20))

/-- Source expression `numCreditors = Math.floor(Math.random() * 4) + 1`, then the first
`numCreditors` banks of the shuffled potential-creditor order. -/
def chosenCreditors (r : GenRand) (d : ℕ) : List ℕ :=
  (r.creditorOrder d).take ((r.numDraw d * 4).floor.toNat + 1)

structure RowAcc where
  row : List ℚ
  assigned : ℚ

/-- The inner forEach of step 2 of `generateNetwork`: each chosen creditor
`c` (at position `k`) receives `liabilityShare = totalIBL * (rand*0.4+0.1)`,
clamped by `min(share, totalIBL - assignedLiability)`, and is written into
the debtor's row only when strictly positive. -/
def buildRowGo (totalIBL : ℚ) (draw : ℕ → ℚ) : ℕ → List ℕ → RowAcc → RowAcc
  | _, [], acc => acc
  | k, c :: rest, acc =>
    let share0 := totalIBL * (draw k * (2/5) + 1/10)
    let share := min share0 (totalIBL - acc.assigned)
    let acc' : RowAcc :=
      if 0 < share then ⟨acc.row.set c share, acc.assigned + share⟩ else acc
    buildRowGo totalIBL draw (k + 1) rest acc'

/-- One debtor's full adjacency row (each debtor writes only into its own
row of the matrix, so the matrix is built row by row). -/
def buildRow (n : ℕ) (totalIBL : ℚ) (draw : ℕ → ℚ) (chosen : List ℕ) : List ℚ :=
  (buildRowGo totalIBL draw 0 chosen ⟨List.replicate n 0, 0⟩).row

/-- The adjacency matrix produced by step 2 of `generateNetwork`. -/
def generateAdj (n : ℕ) (r : GenRand) : Adj :=
  (List.range n).map (fun d =>
    buildRow n (totalIBLOf r d (mkBank r d).L) (r.shareDraw d) (chosenCreditors r d))

/-- The node list after steps 1–3 of `generateNetwork`: balance sheet,
`L_interbank` assigned in step 2, and `A_interbank`/`A_external` computed
from the finished adjacency matrix in step 3. -/
def generateNodes (n : ℕ) (r : GenRand) : List Bank :=
  (List.range n).map (fun i =>
    let b := mkBank r i
    let aib := colSum (generateAdj n r) n i
    { b with
      L_interbank := totalIBLOf r i b.L
      A_interbank := aib
      A_external := b.A - aib })

structure Network where
  nodes : List Bank
  adj : Adj

/-- The function `generateNetwork` for `N = n` banks, with all random draws supplied. -/
def generateNetwork (n : ℕ) (r : GenRand) : Network :=
  ⟨generateNodes n r, generateAdj n r⟩

/-- Validity of the random draws: every `Math.random()` output lies in
`[0, 1)`, and each debtor's shuffled creditor order is a duplicate-free
list of other banks' ids. -/
def ValidGenRand (n : ℕ) (r : GenRand) : Prop :=
  (∀ i, 0 ≤ r.assetDraw i ∧ r.assetDraw i < 1) ∧
  (∀ i, 0 ≤ r.ratioDraw i ∧ r.ratioDraw i < 1) ∧
  (∀ d, 0 ≤ r.iblDraw d ∧ r.iblDraw d < 1) ∧
  (∀ d, 0 ≤ r.numDraw d ∧ r.numDraw d < 1) ∧
  (∀ d k, 0 ≤ r.shareDraw d k ∧ r.shareDraw d k < 1) ∧
  (∀ d, (r.creditorOrder d).Nodup ∧ ∀ c ∈ r.creditorOrder d, c < n ∧ c ≠ d)

/-- The shock selector (`DOM.shockType.value` plus its parameters):
`econWide` is the source's `'macro'` shock, `targeted` carries the chosen
bank id, `random` carries the per-bank outcome of `Math.random() < 0.1`. -/
inductive Shock where
  | econWide : Shock
  | targeted (bankId : ℕ) : Shock
  | random (draw : ℕ → Bool) : Shock

/-- The working copy made at the top of `runSimulation`:
`{ ...n, E: n.E_initial, isFailed: false, debtRank: 0, stressLevel: 0 }`. -/
def resetBank (n : Bank) : Bank :=
  { n with E := n.E_initial, isFailed := false, debtRank := 0, stressLevel := 0 }

/-- The shock branch of Phase 1 for the node at position `idx`. -/
def applyShock (shock : Shock) (idx : ℕ) (node : Bank) : Bank :=
  match shock with
  | Shock.econWide => { node with E := node.E - node.A_external * ECON_LOSS_FACTOR }
  | Shock.targeted bankId =>
    if node.id = bankId then { node with E := -1 } else node
  | Shock.random draw =>
    if draw idx then { node with E := node.E - node.E_initial * (4/5) } else node

/-- The post-shock classification of Phase 1: failure on `E ≤ 0`, else
`debtRank = clamp(1 - E/E0, 0, 1)` and Stressed when `debtRank ≥ 0.5`. -/
def classify1 (node : Bank) : Bank :=
  if node.E ≤ 0 then
    { node with isFailed := true, stressLevel := 2, debtRank := 1 }
  else
    let r0 := clamp (1 - node.E / node.E_initial) 0 1
    { node with debtRank := r0, stressLevel := if (1:ℚ)/2 ≤ r0 then 1 else node.stressLevel }

def phase1Go (shock : Shock) : ℕ → List Bank → List Bank
  | _, [] => []
  | idx, n :: t => classify1 (applyShock shock idx n) :: phase1Go shock (idx + 1) t

/-- Phase 1 of `runSimulation`, applied to the reset working copy. -/
def phase1Nodes (shock : Shock) (nodes : List Bank) : List Bank :=
  phase1Go shock 0 nodes

/-- The `initialRanks` array: an all-zero array of the nodes' length, with
`initialRanks[node.id] = node.debtRank` set for each node in order. -/
def buildInitialRanks (nodes : List Bank) : List ℚ :=
  nodes.foldl (fun acc n => acc.set n.id n.debtRank) (nodes.map (fun _ => (0:ℚ)))

/-- The mutable state of the Phase-2 while loop. -/
structure SimState where
  nodes : List Bank
  previousRanks : List ℚ
  hasConverged : Bool
  iterations : ℕ

/-- The inner debtor sum for creditor `j`:
`Σ_i adj[i][j]/L_interbank[i] × (currentRanks[i] − previousRanks[i])`,
restricted to `adj[i][j] > 0` and `L_interbank[i] > 0`. -/
def propagatedLossRatio (adj : Adj) (nodes : List Bank) (currentRanks previousRanks : List ℚ) (j : ℕ) : ℚ :=
  (List.range nodes.length).foldl
    (fun acc i =>
      let lij := adjGet adj i j
      let bi := nodes.getD i default
      if 0 < lij ∧ 0 < bi.L_interbank then
        acc + lij / bi.L_interbank * (currentRanks.getD i 0 - previousRanks.getD i 0)
      else acc)
    0

/-- Accumulator of the creditor loop: the node array being updated in
place, `totalDebtRankChange` and the `hasConverged` flag. -/
structure PassAcc where
  nodes : List Bank
  totalChange : ℚ
  hasConverged : Bool

/-- The body of the creditor loop for index `j`. -/
def creditorStep (adj : Adj) (currentRanks previousRanks : List ℚ) (acc : PassAcc) (j : ℕ) : PassAcc :=
  let nodej := acc.nodes.getD j default
  if nodej.debtRank < 1 then
    let prop := propagatedLossRatio adj acc.nodes currentRanks previousRanks j
    let rankIncrease := (1 - nodej.debtRank) * prop
    let newRank := clamp (nodej.debtRank + rankIncrease) nodej.debtRank 1
    let changed := DEBT_RANK_TOLERANCE < |newRank - nodej.debtRank|
    { nodes := acc.nodes.set j { nodej with debtRank := newRank }
      totalChange := if changed then acc.totalChange + |newRank - nodej.debtRank| else acc.totalChange
      hasConverged := if changed then false else acc.hasConverged }
  else acc

/-- The end-of-pass re-evaluation of one bank:
`E = E0 × (1 − debtRank)`, forced failure on `E ≤ 0` or
`debtRank ≥ 0.9999`, else Stressed on `debtRank > 0.4`, else Healthy. -/
def reEvaluate (node : Bank) : Bank :=
  let e := node.E_initial * (1 - node.debtRank)
  if e ≤ 0 ∨ (9999/10000 : ℚ) ≤ node.debtRank then
    { node with isFailed := true, stressLevel := 2, debtRank := 1, E := 0 }
  else if (2/5 : ℚ) < node.debtRank then
    { node with E := e, stressLevel := 1 }
  else
    { node with E := e, stressLevel := 0 }

/-- The whole creditor loop of one pass, started from the snapshot
`currentRanks`, with `hasConverged` reset to true at the top of the pass
and `totalDebtRankChange` reset to 0. -/
def creditorLoop (adj : Adj) (st : SimState) : PassAcc :=
  (List.range st.nodes.length).foldl
    (creditorStep adj (st.nodes.map (fun n => n.debtRank)) st.previousRanks)
    ⟨st.nodes, 0, true⟩

/-- The creditor loop stopped after the first `m` creditors, used to
state the loop invariant. `creditorLoop adj st = creditorLoopTo adj st
st.nodes.length`. -/
def creditorLoopTo (adj : Adj) (st : SimState) (m : ℕ) : PassAcc :=
  (List.range m).foldl
    (creditorStep adj (st.nodes.map (fun n => n.debtRank)) st.previousRanks)
    ⟨st.nodes, 0, true⟩

/-- One full pass of the Phase-2 while loop: snapshot `currentRanks`, run
the creditor loop, advance `previousRanks`, re-evaluate capital and
status, and apply the final
`totalDebtRankChange < DEBT_RANK_TOLERANCE` convergence check. -/
def passStep (adj : Adj) (st : SimState) : SimState :=
  { nodes := (creditorLoop adj st).nodes.map reEvaluate
    previousRanks := st.nodes.map (fun n => n.debtRank)
    hasConverged := if (creditorLoop adj st).totalChange < DEBT_RANK_TOLERANCE then true
      else (creditorLoop adj st).hasConverged
    iterations := st.iterations + 1 }

/-- The while loop, with fuel `MAX_ITERATIONS - iterations`:
`while (!hasConverged && iterations < MAX_ITERATIONS)`. -/
def phase2Loop (adj : Adj) : ℕ → SimState → SimState
  | 0, st => st
  | fuel + 1, st =>
    if st.hasConverged then st else phase2Loop adj fuel (passStep adj st)

/-- The run `runSimulation` up to its final state: reset working copy, Phase-1
shock, then the Phase-2 loop started from the Phase-1 ranks. -/
def runSimState (shock : Shock) (net : Network) : SimState :=
  let nodes1 := phase1Nodes shock (net.nodes.map resetBank)
  phase2Loop net.adj MAX_ITERATIONS ⟨nodes1, buildInitialRanks nodes1, false, 0⟩

/-- The function `runSimulation`: the network as the run leaves it
(`network.nodes = nodes`, the adjacency untouched). -/
def runSimulation (shock : Shock) (net : Network) : Network :=
  { net with nodes := (runSimState shock net).nodes }

/-- Agreement on the snapshot fields that a run never alters. -/
def stableEq (a b : Bank) : Prop :=
  a.id = b.id ∧ a.name = b.name ∧ a.A = b.A ∧ a.E_initial = b.E_initial ∧
  a.L = b.L ∧ a.L_interbank = b.L_interbank ∧ a.A_interbank = b.A_interbank ∧
  a.A_external = b.A_external

instance (a b : Bank) : Decidable (stableEq a b) := by
  unfold stableEq
  infer_instance

/-- The rank the creditor loop computes for creditor `j` of state `st`,
expressed as a pure function of the state at the start of the pass. -/
def passNewRank (adj : Adj) (st : SimState) (j : ℕ) : ℚ :=
  let nodej := st.nodes.getD j default
  if nodej.debtRank < 1 then
    clamp (nodej.debtRank +
      (1 - nodej.debtRank) *
        propagatedLossRatio adj st.nodes (st.nodes.map (fun n => n.debtRank)) st.previousRanks j)
      nodej.debtRank 1
  else nodej.debtRank

/-- A hand-built bank for the concrete test scenarios: total assets 1000,
initial capital 100, liabilities 900, with chosen interbank fields. -/
def mkScenBank (i : ℕ) (lib aib aext : ℚ) : Bank :=
  { id := i, name := "", A := 1000, E_initial := 100, E := 100, L := 900,
    isFailed := false, debtRank := 0, stressLevel := 0,
    L_interbank := lib, A_interbank := aib, A_external := aext }

/-- The spec's targeted-shock scenario: five banks, bank 0 owes its whole
interbank liability (900, equal to its `L`) to bank 1 alone, banks 2–4
have no exposure to bank 0. -/
def scen5 : Network :=
  { nodes := [mkScenBank 0 900 0 1000, mkScenBank 1 0 900 100,
              mkScenBank 2 0 0 1000, mkScenBank 3 0 0 1000, mkScenBank 4 0 0 1000],
    adj := [[0, 900, 0, 0, 0],
            [0, 0, 0, 0, 0],
            [0, 0, 0, 0, 0],
            [0, 0, 0, 0, 0],
            [0, 0, 0, 0, 0]] }

/-- A one-bank network used as a small concrete input. -/
def net1 : Network := ⟨[mkScenBank 0 0 0 1000], [[0]]⟩

/-- A concrete draw assignment with every uniform draw equal to 1/2 and
each debtor's shuffled creditor order listing the other banks of a
three-bank network in ascending order. -/
def halfRand : GenRand :=
  { assetDraw := fun _ => 1/2, ratioDraw := fun _ => 1/2, iblDraw := fun _ => 1/2,
    numDraw := fun _ => 1/2, shareDraw := fun _ _ => 1/2,
    creditorOrder := fun d => (List.range 3).filter (fun c => c ≠ d),
    names := ["X", "Y", "Z"] }

/-- Draws for a one-bank network: with `N = 1` there are no potential
creditors, so every shuffled creditor order is empty. -/
def soloRand : GenRand :=
  { assetDraw := fun _ => 1/2, ratioDraw := fun _ => 1/2, iblDraw := fun _ => 1/2,
    numDraw := fun _ => 1/2, shareDraw := fun _ _ => 1/2,
    creditorOrder := fun _ => [], names := ["X"] }

-- =========================================================
-- Helper lemmas
-- =========================================================

theorem getD_set_eq {α : Type _} (l : List α) (i : ℕ) (v d : α) (h : i < l.length) :
    (l.set i v).getD i d = v := by
  have h' : i < (l.set i v).length := by simpa using h
  rw [List.getD_eq_getElem _ _ h']
  exact List.getElem_set_self h'

theorem getD_set_ne {α : Type _} (l : List α) {i j : ℕ} (v d : α) (h : i ≠ j) :
    (l.set i v).getD j d = l.getD j d := by
  rcases lt_or_ge j l.length with hj | hj
  · have hj' : j < (l.set i v).length := by simpa using hj
    rw [List.getD_eq_getElem _ _ hj', List.getD_eq_getElem _ _ hj]
    exact List.getElem_set_ne h hj'
  · rw [List.getD_eq_default _ _ (by simpa using hj), List.getD_eq_default _ _ hj]

theorem getD_map_lt {α β : Type _} (f : α → β) (l : List α) (k : ℕ) (d : β) (h : k < l.length) :
    (l.map f).getD k d = f (l.get ⟨k, h⟩) := by
  rw [List.getD_eq_getElem _ _ (by simpa using h)]
  simp

theorem getD_map_ge {α β : Type _} (f : α → β) (l : List α) (k : ℕ) (d : β) (h : l.length ≤ k) :
    (l.map f).getD k d = d :=
  List.getD_eq_default _ _ (by simpa using h)

theorem set_getD_self (l : List Bank) (j : ℕ) (h : j < l.length) :
    l.set j (l.getD j default) = l := by
  apply List.ext_getElem?
  intro n
  rw [List.getElem?_set]
  split
  · next hjn =>
    subst hjn
    simp [List.getD_eq_getElem _ _ h, h, List.getElem?_eq_getElem h]
  · rfl

theorem phase1Go_getElem? (shock : Shock) :
    ∀ (l : List Bank) (idx k : ℕ),
      (phase1Go shock idx l)[k]? =
        (l[k]?).map (fun n => classify1 (applyShock shock (idx + k) n)) := by
  intro l
  induction l with
  | nil => intro idx k; simp [phase1Go]
  | cons n t ih =>
    intro idx k
    cases k with
    | zero => simp [phase1Go]
    | succ k =>
      have := ih (idx + 1) k
      simpa [phase1Go, Nat.add_assoc, Nat.add_comm 1 k] using this

theorem phase1Go_length (shock : Shock) :
    ∀ (l : List Bank) (idx : ℕ), (phase1Go shock idx l).length = l.length := by
  intro l
  induction l with
  | nil => intro idx; simp [phase1Go]
  | cons n t ih => intro idx; simp [phase1Go, ih]

theorem phase1Nodes_length (shock : Shock) (l : List Bank) :
    (phase1Nodes shock l).length = l.length :=
  phase1Go_length shock l 0

theorem phase1Nodes_getD (shock : Shock) (l : List Bank) (k : ℕ) (h : k < l.length) :
    (phase1Nodes shock l).getD k default =
      classify1 (applyShock shock k (l.getD k default)) := by
  unfold phase1Nodes
  rw [List.getD_eq_getElem?_getD, phase1Go_getElem? shock l 0 k,
    List.getElem?_eq_getElem h]
  simp [List.getD_eq_getElem?_getD, List.getElem?_eq_getElem h]

theorem clamp_le_hi (x lo hi : ℚ) : clamp x lo hi ≤ hi := min_le_right _ _

theorem lo_le_clamp (x lo hi : ℚ) (h : lo ≤ hi) : lo ≤ clamp x lo hi :=
  le_min (le_max_right x lo) h

theorem clamp_self (x hi : ℚ) (h : x ≤ hi) : clamp x x hi = x := by
  unfold clamp
  rw [max_self]
  exact min_eq_left h

theorem default_bank_debtRank : (default : Bank).debtRank = 0 := rfl

theorem classify1_debtRank_nonneg (n : Bank) : 0 ≤ (classify1 n).debtRank := by
  unfold classify1
  split
  · norm_num
  · exact lo_le_clamp _ 0 1 (by norm_num)

theorem classify1_debtRank_le_one (n : Bank) : (classify1 n).debtRank ≤ 1 := by
  unfold classify1
  split
  · norm_num
  · exact clamp_le_hi _ 0 1

theorem classify1_id (n : Bank) : (classify1 n).id = n.id := by
  unfold classify1
  split <;> rfl

theorem applyShock_id (s : Shock) (idx : ℕ) (n : Bank) : (applyShock s idx n).id = n.id := by
  cases s with
  | econWide => rfl
  | targeted bankId =>
    show (if n.id = bankId then { n with E := -1 } else n).id = n.id
    split <;> rfl
  | random draw =>
    show (if draw idx then { n with E := n.E - n.E_initial * (4/5) } else n).id = n.id
    split <;> rfl

theorem resetBank_id (n : Bank) : (resetBank n).id = n.id := rfl

theorem foldl_setRank_length (l : List Bank) :
    ∀ acc : List ℚ, (l.foldl (fun a n => a.set n.id n.debtRank) acc).length = acc.length := by
  induction l with
  | nil => intro acc; rfl
  | cons n t ih => intro acc; rw [List.foldl_cons, ih, List.length_set]

theorem foldl_setRank_getD (l : List Bank) :
    ∀ (acc : List ℚ) (p : ℕ),
      (∀ k, k < l.length → (l.getD k default).id = p + k) →
      p + l.length ≤ acc.length →
      ∀ j, (l.foldl (fun a n => a.set n.id n.debtRank) acc).getD j 0 =
        if p ≤ j ∧ j < p + l.length then (l.getD (j - p) default).debtRank
        else acc.getD j 0 := by
  induction l with
  | nil =>
    intro acc p _ _ j
    rw [List.foldl_nil, if_neg (by simp only [List.length_nil]; omega)]
  | cons n t ih =>
    intro acc p hid hlen j
    have hn : n.id = p := by
      have := hid 0 (by simp)
      simpa using this
    rw [List.foldl_cons, hn]
    have hid' : ∀ k, k < t.length → (t.getD k default).id = (p + 1) + k := by
      intro k hk
      have := hid (k + 1) (by simp only [List.length_cons]; omega)
      simpa [Nat.add_assoc, Nat.add_comm 1 k] using this
    have hlen' : (p + 1) + t.length ≤ (acc.set p n.debtRank).length := by
      rw [List.length_set]
      simp only [List.length_cons] at hlen
      omega
    rw [ih (acc.set p n.debtRank) (p + 1) hid' hlen' j]
    by_cases h1 : (p + 1) ≤ j ∧ j < (p + 1) + t.length
    · rw [if_pos h1, if_pos (by simp only [List.length_cons]; omega)]
      have hjp : j - p = (j - (p + 1)) + 1 := by omega
      rw [hjp, List.getD_cons_succ]
    · rw [if_neg h1]
      by_cases h2 : j = p
      · subst h2
        rw [getD_set_eq _ _ _ _ (by simp only [List.length_cons] at hlen; omega),
          if_pos (by simp only [List.length_cons]; omega)]
        simp
      · rw [getD_set_ne _ _ _ (fun hh => h2 hh.symm),
          if_neg (by simp only [List.length_cons]; omega)]

theorem buildInitialRanks_length (ns : List Bank) :
    (buildInitialRanks ns).length = ns.length := by
  unfold buildInitialRanks
  rw [foldl_setRank_length, List.length_map]

theorem buildInitialRanks_getD (ns : List Bank)
    (hid : ∀ k, k < ns.length → (ns.getD k default).id = k)
    (j : ℕ) (hj : j < ns.length) :
    (buildInitialRanks ns).getD j 0 = (ns.getD j default).debtRank := by
  unfold buildInitialRanks
  rw [foldl_setRank_getD ns _ 0 (by simpa using hid) (by simp) j,
    if_pos (by omega)]
  simp

theorem foldl_fixed_of {α β : Type _} (f : α → β → α) (a : α) :
    ∀ l : List β, (∀ b ∈ l, f a b = a) → l.foldl f a = a := by
  intro l
  induction l with
  | nil => intro _; rfl
  | cons b t ih =>
    intro h
    rw [List.foldl_cons, h b (by simp), ih (fun c hc => h c (by simp [hc]))]

theorem propagatedLossRatio_zero (adj : Adj) (nodes : List Bank) (cur prev : List ℚ)
    (h : ∀ i, i < nodes.length → cur.getD i 0 = prev.getD i 0) (j : ℕ) :
    propagatedLossRatio adj nodes cur prev j = 0 := by
  unfold propagatedLossRatio
  apply foldl_fixed_of
  intro i hi
  have hi' : i < nodes.length := List.mem_range.mp hi
  dsimp only
  split
  · rw [h i hi']
    ring
  · rfl

theorem creditorStep_id_acc (adj : Adj) (ns : List Bank) (cur prev : List ℚ)
    (hzero : ∀ i, i < ns.length → cur.getD i 0 = prev.getD i 0)
    (hdr : ∀ k, (ns.getD k default).debtRank ≤ 1)
    (j : ℕ) (hj : j < ns.length) :
    creditorStep adj cur prev ⟨ns, 0, true⟩ j = ⟨ns, 0, true⟩ := by
  unfold creditorStep
  dsimp only
  split
  · have hprop : propagatedLossRatio adj ns cur prev j = 0 :=
      propagatedLossRatio_zero adj ns cur prev hzero j
    rw [hprop]
    have hclamp :
        clamp ((ns.getD j default).debtRank + (1 - (ns.getD j default).debtRank) * 0)
          (ns.getD j default).debtRank 1 = (ns.getD j default).debtRank := by
      rw [mul_zero, add_zero]
      exact clamp_self _ _ (hdr j)
    rw [hclamp]
    have hchanged : ¬ DEBT_RANK_TOLERANCE <
        |(ns.getD j default).debtRank - (ns.getD j default).debtRank| := by
      rw [sub_self, abs_zero]
      norm_num [DEBT_RANK_TOLERANCE]
    rw [if_neg hchanged, if_neg hchanged]
    have heta : { ns.getD j default with debtRank := (ns.getD j default).debtRank } =
        ns.getD j default := rfl
    rw [heta, set_getD_self ns j hj]
  · rfl

theorem foldl_creditorStep_id (adj : Adj) (ns : List Bank) (cur prev : List ℚ)
    (hzero : ∀ i, i < ns.length → cur.getD i 0 = prev.getD i 0)
    (hdr : ∀ k, (ns.getD k default).debtRank ≤ 1)
    (l : List ℕ) (hl : ∀ j ∈ l, j < ns.length) :
    l.foldl (creditorStep adj cur prev) ⟨ns, 0, true⟩ = ⟨ns, 0, true⟩ :=
  foldl_fixed_of _ _ l (fun j hj =>
    creditorStep_id_acc adj ns cur prev hzero hdr j (hl j hj))

theorem passStep_no_delta (adj : Adj) (st : SimState)
    (hzero : ∀ i, i < st.nodes.length →
      (st.nodes.map (fun n => n.debtRank)).getD i 0 = st.previousRanks.getD i 0)
    (hdr : ∀ k, (st.nodes.getD k default).debtRank ≤ 1) :
    passStep adj st =
      ⟨st.nodes.map reEvaluate, st.nodes.map (fun n => n.debtRank), true,
        st.iterations + 1⟩ := by
  unfold passStep creditorLoop
  rw [foldl_creditorStep_id adj st.nodes _ st.previousRanks hzero hdr _
    (fun j hj => List.mem_range.mp hj)]
  rw [if_pos (show (⟨st.nodes, 0, true⟩ : PassAcc).totalChange < DEBT_RANK_TOLERANCE by
    show (0:ℚ) < DEBT_RANK_TOLERANCE
    norm_num [DEBT_RANK_TOLERANCE])]

theorem phase2Loop_converged (adj : Adj) (fuel : ℕ) (st : SimState)
    (h : st.hasConverged = true) : phase2Loop adj fuel st = st := by
  cases fuel with
  | zero => rfl
  | succ fuel => rw [phase2Loop, if_pos h]

theorem phase1_aligned (shock : Shock) (net : Network)
    (hid : ∀ k, k < net.nodes.length → (net.nodes.getD k default).id = k) :
    ∀ k, k < (phase1Nodes shock (net.nodes.map resetBank)).length →
      ((phase1Nodes shock (net.nodes.map resetBank)).getD k default).id = k := by
  have hlen0 : (net.nodes.map resetBank).length = net.nodes.length := by simp
  have hlen1 : (phase1Nodes shock (net.nodes.map resetBank)).length = net.nodes.length := by
    rw [phase1Nodes_length, hlen0]
  intro k hk
  have hk' : k < net.nodes.length := by omega
  rw [phase1Nodes_getD shock _ k (by omega), classify1_id, applyShock_id,
    getD_map_lt resetBank net.nodes k default hk', resetBank_id,
    ← List.getD_eq_get net.nodes default hk']
  exact hid k hk'

theorem phase1_debtRank_le_one (shock : Shock) (l : List Bank) :
    ∀ k, ((phase1Nodes shock l).getD k default).debtRank ≤ 1 := by
  intro k
  by_cases hk : k < (phase1Nodes shock l).length
  · rw [phase1Nodes_getD shock _ k (by rw [← phase1Nodes_length shock]; exact hk)]
    exact classify1_debtRank_le_one _
  · rw [List.getD_eq_default _ _ (by omega)]
    norm_num [default_bank_debtRank]

theorem phase1_ranks_delta_zero (shock : Shock) (net : Network)
    (hid : ∀ k, k < net.nodes.length → (net.nodes.getD k default).id = k) :
    ∀ i, i < (phase1Nodes shock (net.nodes.map resetBank)).length →
      ((phase1Nodes shock (net.nodes.map resetBank)).map (fun n => n.debtRank)).getD i 0 =
        (buildInitialRanks (phase1Nodes shock (net.nodes.map resetBank))).getD i 0 := by
  intro i hi
  rw [buildInitialRanks_getD _ (phase1_aligned shock net hid) i hi, getD_map_lt _ _ i 0 hi,
    ← List.getD_eq_get _ default hi]

theorem runSimState_aligned (shock : Shock) (net : Network)
    (hid : ∀ k, k < net.nodes.length → (net.nodes.getD k default).id = k) :
    runSimState shock net =
      ⟨(phase1Nodes shock (net.nodes.map resetBank)).map reEvaluate,
       (phase1Nodes shock (net.nodes.map resetBank)).map (fun n => n.debtRank),
       true, 1⟩ := by
  unfold runSimState
  rw [show MAX_ITERATIONS = 99 + 1 from rfl, phase2Loop, if_neg (by simp)]
  rw [passStep_no_delta net.adj _ (phase1_ranks_delta_zero shock net hid)
    (phase1_debtRank_le_one shock _)]
  exact phase2Loop_converged net.adj 99 _ rfl

theorem reEvaluate_forced (n : Bank)
    (h : n.E_initial * (1 - n.debtRank) ≤ 0 ∨ (9999/10000 : ℚ) ≤ n.debtRank) :
    (reEvaluate n).debtRank = 1 ∧ (reEvaluate n).isFailed = true ∧ (reEvaluate n).E = 0 := by
  unfold reEvaluate
  dsimp only
  rw [if_pos h]
  exact ⟨rfl, rfl, rfl⟩

theorem reEvaluate_unforced (n : Bank)
    (h : ¬ (n.E_initial * (1 - n.debtRank) ≤ 0 ∨ (9999/10000 : ℚ) ≤ n.debtRank)) :
    (reEvaluate n).debtRank = n.debtRank := by
  unfold reEvaluate
  dsimp only
  rw [if_neg h]
  split <;> rfl

theorem getD_set_cases {α : Type _} (l : List α) (i j : ℕ) (v d : α) :
    (l.set i v).getD j d = if i = j ∧ i < l.length then v else l.getD j d := by
  by_cases h1 : i = j ∧ i < l.length
  · obtain ⟨he, hlt⟩ := h1
    subst he
    rw [if_pos ⟨rfl, hlt⟩, getD_set_eq _ _ _ _ hlt]
  · rw [if_neg h1]
    by_cases h2 : i = j
    · subst h2
      have h3 : l.length ≤ i := by
        by_contra hc
        exact h1 ⟨rfl, by omega⟩
      rw [List.set_eq_of_length_le h3]
    · exact getD_set_ne _ _ _ h2

theorem getD_map_bank (f : Bank → Bank) (l : List Bank) (k : ℕ) (h : k < l.length) :
    (l.map f).getD k default = f (l.getD k default) := by
  rw [getD_map_lt f l k default h, List.getD_eq_get l default h]

theorem creditorStep_mono (adj : Adj) (cur prev : List ℚ) (ns : List Bank)
    (acc : PassAcc) (j : ℕ)
    (hlen : acc.nodes.length = ns.length)
    (hmono : ∀ k, (ns.getD k default).debtRank ≤ (acc.nodes.getD k default).debtRank)
    (hle1 : ∀ k, (acc.nodes.getD k default).debtRank ≤ 1) :
    (creditorStep adj cur prev acc j).nodes.length = ns.length ∧
    (∀ k, (ns.getD k default).debtRank ≤
      ((creditorStep adj cur prev acc j).nodes.getD k default).debtRank) ∧
    (∀ k, ((creditorStep adj cur prev acc j).nodes.getD k default).debtRank ≤ 1) := by
  unfold creditorStep
  dsimp only
  split
  · refine ⟨by rw [List.length_set]; exact hlen, ?_, ?_⟩
    · intro k
      rw [getD_set_cases]
      split
      · next hc =>
        obtain ⟨he, _⟩ := hc
        subst he
        exact le_trans (hmono j) (lo_le_clamp _ _ _ (hle1 j))
      · exact hmono k
    · intro k
      rw [getD_set_cases]
      split
      · exact clamp_le_hi _ _ _
      · exact hle1 k
  · exact ⟨hlen, hmono, hle1⟩

theorem foldl_creditorStep_mono (adj : Adj) (cur prev : List ℚ) (ns : List Bank) :
    ∀ (l : List ℕ) (acc : PassAcc),
      acc.nodes.length = ns.length →
      (∀ k, (ns.getD k default).debtRank ≤ (acc.nodes.getD k default).debtRank) →
      (∀ k, (acc.nodes.getD k default).debtRank ≤ 1) →
      (l.foldl (creditorStep adj cur prev) acc).nodes.length = ns.length ∧
      (∀ k, (ns.getD k default).debtRank ≤
        ((l.foldl (creditorStep adj cur prev) acc).nodes.getD k default).debtRank) ∧
      (∀ k, ((l.foldl (creditorStep adj cur prev) acc).nodes.getD k default).debtRank ≤ 1) := by
  intro l
  induction l with
  | nil => intro acc h1 h2 h3; exact ⟨h1, h2, h3⟩
  | cons j t ih =>
    intro acc h1 h2 h3
    rw [List.foldl_cons]
    obtain ⟨g1, g2, g3⟩ := creditorStep_mono adj cur prev ns acc j h1 h2 h3
    exact ih (creditorStep adj cur prev acc j) g1 g2 g3

theorem reEvaluate_debtRank_mono (n : Bank) (h : n.debtRank ≤ 1) :
    n.debtRank ≤ (reEvaluate n).debtRank ∧ (reEvaluate n).debtRank ≤ 1 := by
  unfold reEvaluate
  dsimp only
  split
  · exact ⟨h, le_refl 1⟩
  · split
    · exact ⟨le_refl _, h⟩
    · exact ⟨le_refl _, h⟩

theorem passStep_mono (adj : Adj) (st : SimState)
    (hle1 : ∀ k, (st.nodes.getD k default).debtRank ≤ 1) :
    (passStep adj st).nodes.length = st.nodes.length ∧
    (∀ k, (st.nodes.getD k default).debtRank ≤
      ((passStep adj st).nodes.getD k default).debtRank) ∧
    (∀ k, ((passStep adj st).nodes.getD k default).debtRank ≤ 1) := by
  obtain ⟨hlen, hmono, hle⟩ := foldl_creditorStep_mono adj
    (st.nodes.map (fun n => n.debtRank)) st.previousRanks st.nodes
    (List.range st.nodes.length) ⟨st.nodes, 0, true⟩ rfl (fun k => le_refl _) hle1
  have hpl : (passStep adj st).nodes = (creditorLoop adj st).nodes.map reEvaluate := rfl
  refine ⟨?_, ?_, ?_⟩
  · rw [hpl, List.length_map]
    exact hlen
  · intro k
    rw [hpl]
    by_cases hk : k < (creditorLoop adj st).nodes.length
    · rw [getD_map_bank reEvaluate _ k hk]
      exact le_trans (hmono k) (reEvaluate_debtRank_mono _ (hle k)).1
    · have hcl : (creditorLoop adj st).nodes.length = st.nodes.length := hlen
      have h1 : (List.map reEvaluate (creditorLoop adj st).nodes).getD k default = default :=
        List.getD_eq_default _ _ (by rw [List.length_map]; omega)
      have h2 : st.nodes.getD k default = default :=
        List.getD_eq_default _ _ (by omega)
      rw [h1, h2]
  · intro k
    rw [hpl]
    by_cases hk : k < (creditorLoop adj st).nodes.length
    · rw [getD_map_bank reEvaluate _ k hk]
      exact (reEvaluate_debtRank_mono _ (hle k)).2
    · have h1 : (List.map reEvaluate (creditorLoop adj st).nodes).getD k default = default :=
        List.getD_eq_default _ _ (by rw [List.length_map]; omega)
      rw [h1]
      norm_num [default_bank_debtRank]

theorem phase2Loop_mono (adj : Adj) :
    ∀ (fuel : ℕ) (st : SimState),
      (∀ k, (st.nodes.getD k default).debtRank ≤ 1) →
      (∀ k, (st.nodes.getD k default).debtRank ≤
        ((phase2Loop adj fuel st).nodes.getD k default).debtRank) ∧
      (∀ k, ((phase2Loop adj fuel st).nodes.getD k default).debtRank ≤ 1) := by
  intro fuel
  induction fuel with
  | zero => intro st h; exact ⟨fun k => le_refl _, h⟩
  | succ fuel ih =>
    intro st h
    rw [phase2Loop]
    split
    · exact ⟨fun k => le_refl _, h⟩
    · obtain ⟨p1, p2, p3⟩ := passStep_mono adj st h
      obtain ⟨q1, q2⟩ := ih (passStep adj st) p3
      exact ⟨fun k => le_trans (p2 k) (q1 k), q2⟩

theorem propagatedLossRatio_congr (adj : Adj) (ns1 ns2 : List Bank) (cur prev : List ℚ)
    (hlen : ns1.length = ns2.length)
    (hlib : ∀ i, (ns1.getD i default).L_interbank = (ns2.getD i default).L_interbank)
    (j : ℕ) :
    propagatedLossRatio adj ns1 cur prev j = propagatedLossRatio adj ns2 cur prev j := by
  unfold propagatedLossRatio
  rw [hlen]
  apply List.foldl_ext
  intro acc i _
  dsimp only
  rw [hlib i]

theorem creditorLoop_eq_to (adj : Adj) (st : SimState) :
    creditorLoop adj st = creditorLoopTo adj st st.nodes.length := rfl

theorem creditorLoopTo_invariant (adj : Adj) (st : SimState) :
    ∀ m : ℕ, m ≤ st.nodes.length →
      (creditorLoopTo adj st m).nodes.length = st.nodes.length ∧
      (∀ i, ((creditorLoopTo adj st m).nodes.getD i default).L_interbank =
        (st.nodes.getD i default).L_interbank) ∧
      (∀ i, m ≤ i →
        (creditorLoopTo adj st m).nodes.getD i default = st.nodes.getD i default) ∧
      (∀ i, i < m →
        ((creditorLoopTo adj st m).nodes.getD i default).debtRank = passNewRank adj st i) ∧
      ((creditorLoopTo adj st m).hasConverged = true ↔ ∀ i, i < m →
        |passNewRank adj st i - (st.nodes.getD i default).debtRank| ≤ DEBT_RANK_TOLERANCE) ∧
      0 ≤ (creditorLoopTo adj st m).totalChange ∧
      ((creditorLoopTo adj st m).hasConverged = false →
        DEBT_RANK_TOLERANCE < (creditorLoopTo adj st m).totalChange) := by
  intro m
  induction m with
  | zero =>
    intro _
    refine ⟨rfl, fun i => rfl, fun i _ => rfl, fun i hi => absurd hi (by omega),
      ⟨fun _ i hi => absurd hi (by omega), fun _ => rfl⟩, le_refl 0, ?_⟩
    intro h
    exact absurd h (by simp [creditorLoopTo])
  | succ m ih =>
    intro hm
    obtain ⟨hlen, hlib, huntouched, hdone, hconv, htc0, hfalse⟩ := ih (by omega)
    have hstep : creditorLoopTo adj st (m + 1) =
        creditorStep adj (st.nodes.map (fun n => n.debtRank)) st.previousRanks
          (creditorLoopTo adj st m) m := by
      unfold creditorLoopTo
      rw [List.range_succ, List.foldl_append, List.foldl_cons, List.foldl_nil]
    have hnodej : (creditorLoopTo adj st m).nodes.getD m default =
        st.nodes.getD m default := huntouched m (le_refl m)
    have hmlt : m < (creditorLoopTo adj st m).nodes.length := by omega
    rw [hstep]
    unfold creditorStep
    dsimp only
    rw [hnodej, propagatedLossRatio_congr adj (creditorLoopTo adj st m).nodes st.nodes
      _ _ hlen hlib m]
    by_cases hlt : (st.nodes.getD m default).debtRank < 1
    · rw [if_pos hlt]
      dsimp only
      have hNR : clamp ((st.nodes.getD m default).debtRank +
          (1 - (st.nodes.getD m default).debtRank) *
            propagatedLossRatio adj st.nodes (st.nodes.map (fun n => n.debtRank))
              st.previousRanks m)
          (st.nodes.getD m default).debtRank 1 = passNewRank adj st m := by
        unfold passNewRank
        dsimp only
        rw [if_pos hlt]
      rw [hNR]
      refine ⟨by rw [List.length_set]; exact hlen, ?_, ?_, ?_, ?_, ?_, ?_⟩
      · intro i
        rw [getD_set_cases]
        split
        · next hc =>
          obtain ⟨he, _⟩ := hc
          subst he
          rfl
        · exact hlib i
      · intro i hi
        rw [getD_set_ne _ _ _ (by omega)]
        exact huntouched i (by omega)
      · intro i hi
        by_cases him : i = m
        · subst him
          rw [getD_set_eq _ _ _ _ hmlt]
        · rw [getD_set_ne _ _ _ (fun hh => him hh.symm)]
          exact hdone i (by omega)
      · by_cases hchanged : DEBT_RANK_TOLERANCE <
            |passNewRank adj st m - (st.nodes.getD m default).debtRank|
        · rw [if_pos hchanged]
          constructor
          · intro h
            exact absurd h (by simp)
          · intro hall
            exact absurd (hall m (by omega)) (not_le.mpr hchanged)
        · rw [if_neg hchanged]
          constructor
          · intro h i hi
            by_cases him : i = m
            · subst him
              exact not_lt.mp hchanged
            · exact hconv.mp h i (by omega)
          · intro hall
            exact hconv.mpr (fun i hi => hall i (by omega))
      · split
        · exact add_nonneg htc0 (abs_nonneg _)
        · exact htc0
      · by_cases hchanged : DEBT_RANK_TOLERANCE <
            |passNewRank adj st m - (st.nodes.getD m default).debtRank|
        · rw [if_pos hchanged, if_pos hchanged]
          intro _
          linarith [htc0, hchanged]
        · rw [if_neg hchanged, if_neg hchanged]
          exact hfalse
    · rw [if_neg hlt]
      have hpnr : passNewRank adj st m = (st.nodes.getD m default).debtRank := by
        unfold passNewRank
        dsimp only
        rw [if_neg hlt]
      refine ⟨hlen, hlib, fun i hi => huntouched i (by omega), ?_, ?_, htc0, hfalse⟩
      · intro i hi
        by_cases him : i = m
        · subst him
          rw [hnodej, hpnr]
        · exact hdone i (by omega)
      · constructor
        · intro h i hi
          by_cases him : i = m
          · subst him
            rw [hpnr, sub_self, abs_zero]
            norm_num [DEBT_RANK_TOLERANCE]
          · exact hconv.mp h i (by omega)
        · intro hall
          exact hconv.mpr (fun i hi => hall i (by omega))

theorem passStep_hasConverged_iff (adj : Adj) (st : SimState) :
    (passStep adj st).hasConverged = true ↔
      ∀ j, j < st.nodes.length →
        |passNewRank adj st j - (st.nodes.getD j default).debtRank| ≤ DEBT_RANK_TOLERANCE := by
  obtain ⟨_, _, _, _, hconv, htc0, hfalse⟩ :=
    creditorLoopTo_invariant adj st st.nodes.length (le_refl _)
  have hshow : (passStep adj st).hasConverged =
      (if (creditorLoopTo adj st st.nodes.length).totalChange < DEBT_RANK_TOLERANCE then true
       else (creditorLoopTo adj st st.nodes.length).hasConverged) := rfl
  rw [hshow]
  by_cases hcv : (creditorLoopTo adj st st.nodes.length).hasConverged = true
  · rw [hcv]
    constructor
    · intro _
      exact hconv.mp hcv
    · intro _
      split <;> rfl
  · have hf : (creditorLoopTo adj st st.nodes.length).hasConverged = false := by
      revert hcv
      cases (creditorLoopTo adj st st.nodes.length).hasConverged <;> simp
    have h1 := hfalse hf
    rw [if_neg (not_lt.mpr (le_of_lt h1)), hf]
    constructor
    · intro h
      exact absurd h (by simp)
    · intro hall
      exact absurd (hconv.mpr hall) (by rw [hf]; simp)

theorem stableEq_refl (a : Bank) : stableEq a a :=
  ⟨rfl, rfl, rfl, rfl, rfl, rfl, rfl, rfl⟩

theorem stableEq_trans {a b c : Bank} (h1 : stableEq a b) (h2 : stableEq b c) :
    stableEq a c := by
  obtain ⟨x1, x2, x3, x4, x5, x6, x7, x8⟩ := h1
  obtain ⟨y1, y2, y3, y4, y5, y6, y7, y8⟩ := h2
  exact ⟨x1.trans y1, x2.trans y2, x3.trans y3, x4.trans y4, x5.trans y5, x6.trans y6,
    x7.trans y7, x8.trans y8⟩

theorem resetBank_stable (n : Bank) : stableEq (resetBank n) n :=
  ⟨rfl, rfl, rfl, rfl, rfl, rfl, rfl, rfl⟩

theorem applyShock_stable (s : Shock) (idx : ℕ) (n : Bank) :
    stableEq (applyShock s idx n) n := by
  cases s with
  | econWide => exact ⟨rfl, rfl, rfl, rfl, rfl, rfl, rfl, rfl⟩
  | targeted b =>
    show stableEq (if n.id = b then { n with E := -1 } else n) n
    split
    · exact ⟨rfl, rfl, rfl, rfl, rfl, rfl, rfl, rfl⟩
    · exact stableEq_refl n
  | random d =>
    show stableEq (if d idx then { n with E := n.E - n.E_initial * (4/5) } else n) n
    split
    · exact ⟨rfl, rfl, rfl, rfl, rfl, rfl, rfl, rfl⟩
    · exact stableEq_refl n

theorem classify1_stable (n : Bank) : stableEq (classify1 n) n := by
  unfold classify1
  dsimp only
  split
  · exact ⟨rfl, rfl, rfl, rfl, rfl, rfl, rfl, rfl⟩
  · exact ⟨rfl, rfl, rfl, rfl, rfl, rfl, rfl, rfl⟩

theorem reEvaluate_stable (n : Bank) : stableEq (reEvaluate n) n := by
  unfold reEvaluate
  dsimp only
  split
  · exact ⟨rfl, rfl, rfl, rfl, rfl, rfl, rfl, rfl⟩
  · split
    · exact ⟨rfl, rfl, rfl, rfl, rfl, rfl, rfl, rfl⟩
    · exact ⟨rfl, rfl, rfl, rfl, rfl, rfl, rfl, rfl⟩

theorem creditorStep_stable (adj : Adj) (cur prev : List ℚ) (ns : List Bank)
    (acc : PassAcc) (j : ℕ)
    (hlen : acc.nodes.length = ns.length)
    (hst : ∀ k, stableEq (acc.nodes.getD k default) (ns.getD k default)) :
    (creditorStep adj cur prev acc j).nodes.length = ns.length ∧
    (∀ k, stableEq ((creditorStep adj cur prev acc j).nodes.getD k default)
      (ns.getD k default)) := by
  unfold creditorStep
  dsimp only
  split
  · refine ⟨by rw [List.length_set]; exact hlen, ?_⟩
    intro k
    rw [getD_set_cases]
    split
    · next hc =>
      obtain ⟨he, _⟩ := hc
      subst he
      exact stableEq_trans ⟨rfl, rfl, rfl, rfl, rfl, rfl, rfl, rfl⟩ (hst j)
    · exact hst k
  · exact ⟨hlen, hst⟩

theorem foldl_creditorStep_stable (adj : Adj) (cur prev : List ℚ) (ns : List Bank) :
    ∀ (l : List ℕ) (acc : PassAcc),
      acc.nodes.length = ns.length →
      (∀ k, stableEq (acc.nodes.getD k default) (ns.getD k default)) →
      (l.foldl (creditorStep adj cur prev) acc).nodes.length = ns.length ∧
      (∀ k, stableEq ((l.foldl (creditorStep adj cur prev) acc).nodes.getD k default)
        (ns.getD k default)) := by
  intro l
  induction l with
  | nil => intro acc h1 h2; exact ⟨h1, h2⟩
  | cons j t ih =>
    intro acc h1 h2
    rw [List.foldl_cons]
    obtain ⟨g1, g2⟩ := creditorStep_stable adj cur prev ns acc j h1 h2
    exact ih _ g1 g2

theorem passStep_stable (adj : Adj) (st : SimState) :
    (passStep adj st).nodes.length = st.nodes.length ∧
    (∀ k, stableEq ((passStep adj st).nodes.getD k default)
      (st.nodes.getD k default)) := by
  obtain ⟨hlen, hst⟩ := foldl_creditorStep_stable adj
    (st.nodes.map (fun n => n.debtRank)) st.previousRanks st.nodes
    (List.range st.nodes.length) ⟨st.nodes, 0, true⟩ rfl (fun k => stableEq_refl _)
  have hpl : (passStep adj st).nodes = (creditorLoop adj st).nodes.map reEvaluate := rfl
  constructor
  · rw [hpl, List.length_map]
    exact hlen
  · intro k
    rw [hpl]
    by_cases hk : k < (creditorLoop adj st).nodes.length
    · rw [getD_map_bank reEvaluate _ k hk]
      exact stableEq_trans (reEvaluate_stable _) (hst k)
    · have hcl : (creditorLoop adj st).nodes.length = st.nodes.length := hlen
      have h1 : (List.map reEvaluate (creditorLoop adj st).nodes).getD k default = default :=
        List.getD_eq_default _ _ (by rw [List.length_map]; omega)
      have h2 : st.nodes.getD k default = default :=
        List.getD_eq_default _ _ (by omega)
      rw [h1, h2]
      exact stableEq_refl _

theorem phase2Loop_stable (adj : Adj) :
    ∀ (fuel : ℕ) (st : SimState),
      (phase2Loop adj fuel st).nodes.length = st.nodes.length ∧
      (∀ k, stableEq ((phase2Loop adj fuel st).nodes.getD k default)
        (st.nodes.getD k default)) := by
  intro fuel
  induction fuel with
  | zero => intro st; exact ⟨rfl, fun k => stableEq_refl _⟩
  | succ fuel ih =>
    intro st
    rw [phase2Loop]
    split
    · exact ⟨rfl, fun k => stableEq_refl _⟩
    · obtain ⟨p1, p2⟩ := passStep_stable adj st
      obtain ⟨q1, q2⟩ := ih (passStep adj st)
      exact ⟨q1.trans p1, fun k => stableEq_trans (q2 k) (p2 k)⟩

theorem phase1_stable (shock : Shock) (l : List Bank) (k : ℕ) :
    stableEq ((phase1Nodes shock l).getD k default) (l.getD k default) := by
  by_cases hk : k < l.length
  · rw [phase1Nodes_getD shock l k hk]
    exact stableEq_trans (classify1_stable _) (applyShock_stable _ _ _)
  · rw [List.getD_eq_default _ _ (by rw [phase1Nodes_length]; omega),
      List.getD_eq_default _ _ (by omega)]
    exact stableEq_refl _

theorem map_resetBank_stable (l : List Bank) (k : ℕ) :
    stableEq ((l.map resetBank).getD k default) (l.getD k default) := by
  by_cases hk : k < l.length
  · rw [getD_map_bank resetBank l k hk]
    exact resetBank_stable _
  · rw [List.getD_eq_default _ _ (by rw [List.length_map]; omega),
      List.getD_eq_default _ _ (by omega)]
    exact stableEq_refl _

theorem runSim_stable (shock : Shock) (net : Network) :
    (runSimulation shock net).nodes.length = net.nodes.length ∧
    (∀ k, stableEq ((runSimulation shock net).nodes.getD k default)
      (net.nodes.getD k default)) := by
  obtain ⟨hlen, hst⟩ := phase2Loop_stable net.adj MAX_ITERATIONS
    ⟨phase1Nodes shock (net.nodes.map resetBank),
      buildInitialRanks (phase1Nodes shock (net.nodes.map resetBank)), false, 0⟩
  constructor
  · show (phase2Loop net.adj MAX_ITERATIONS _).nodes.length = net.nodes.length
    rw [hlen]
    show (phase1Nodes shock (net.nodes.map resetBank)).length = net.nodes.length
    rw [phase1Nodes_length, List.length_map]
  · intro k
    refine stableEq_trans (stableEq_trans (hst k) ?_) (map_resetBank_stable net.nodes k)
    exact phase1_stable shock (net.nodes.map resetBank) k

theorem resetBank_eq_of_stableEq {a b : Bank} (h : stableEq a b) :
    resetBank a = resetBank b := by
  obtain ⟨h1, h2, h3, h4, h5, h6, h7, h8⟩ := h
  unfold resetBank
  cases a
  cases b
  simp_all

theorem map_resetBank_eq (ns1 ns2 : List Bank) (hlen : ns1.length = ns2.length)
    (hst : ∀ k, stableEq (ns1.getD k default) (ns2.getD k default)) :
    ns1.map resetBank = ns2.map resetBank := by
  apply List.ext_getElem (by rw [List.length_map, List.length_map, hlen])
  intro k h1 h2
  rw [List.getElem_map, List.getElem_map]
  have hk1 : k < ns1.length := by simpa using h1
  have hk2 : k < ns2.length := by simpa using h2
  have h := resetBank_eq_of_stableEq (hst k)
  rw [List.getD_eq_getElem _ _ hk1, List.getD_eq_getElem _ _ hk2] at h
  exact h

theorem runSimulation_deterministic (shock : Shock) (adj : Adj) (ns1 ns2 : List Bank)
    (hlen : ns1.length = ns2.length)
    (hst : ∀ k, stableEq (ns1.getD k default) (ns2.getD k default)) :
    runSimulation shock ⟨ns1, adj⟩ = runSimulation shock ⟨ns2, adj⟩ := by
  unfold runSimulation runSimState
  dsimp only
  rw [map_resetBank_eq ns1 ns2 hlen hst]

theorem phase2Loop_shape (adj : Adj) :
    ∀ (fuel : ℕ) (st : SimState),
      phase2Loop adj fuel st = st ∨ ∃ st2, phase2Loop adj fuel st = passStep adj st2 := by
  intro fuel
  induction fuel with
  | zero => intro st; exact Or.inl rfl
  | succ fuel ih =>
    intro st
    rw [phase2Loop]
    split
    · exact Or.inl rfl
    · rcases ih (passStep adj st) with h | ⟨st2, h⟩
      · exact Or.inr ⟨st, h⟩
      · exact Or.inr ⟨st2, h⟩

theorem reEvaluate_rank_one (b : Bank) :
    (reEvaluate b).debtRank = 1 →
      (reEvaluate b).isFailed = true ∧ (reEvaluate b).E = 0 := by
  unfold reEvaluate
  dsimp only
  split
  · intro _
    exact ⟨rfl, rfl⟩
  · next hcond =>
    push_neg at hcond
    have hlt : b.debtRank < 9999/10000 := hcond.2
    split
    · intro h1
      have h1' : b.debtRank = 1 := h1
      rw [h1'] at hlt
      norm_num at hlt
    · intro h1
      have h1' : b.debtRank = 1 := h1
      rw [h1'] at hlt
      norm_num at hlt

theorem runSim_nodes_post_reEvaluate (shock : Shock) (net : Network) :
    ∃ ys : List Bank, (runSimulation shock net).nodes = ys.map reEvaluate := by
  obtain ⟨ys, h⟩ : ∃ ys : List Bank, (runSimState shock net).nodes = ys.map reEvaluate := by
    unfold runSimState
    rw [show MAX_ITERATIONS = 99 + 1 from rfl, phase2Loop, if_neg (by simp)]
    rcases phase2Loop_shape net.adj 99
      (passStep net.adj
        ⟨phase1Nodes shock (net.nodes.map resetBank),
          buildInitialRanks (phase1Nodes shock (net.nodes.map resetBank)), false, 0⟩)
      with h | ⟨st2, h⟩
    · rw [h]
      exact ⟨(creditorLoop net.adj _).nodes, rfl⟩
    · rw [h]
      exact ⟨(creditorLoop net.adj st2).nodes, rfl⟩
  exact ⟨ys, h⟩

theorem getD_replicate (n j : ℕ) : (List.replicate n (0:ℚ)).getD j 0 = 0 := by
  by_cases h : j < n
  · rw [List.getD_eq_getElem _ _ (by simpa using h)]
    simp
  · rw [List.getD_eq_default _ _ (by simpa using h)]

theorem sum_getD_range : ∀ (l : List ℚ) (n : ℕ), l.length = n →
    ((List.range n).map (fun j => l.getD j 0)).sum = l.sum := by
  intro l
  induction l with
  | nil =>
    intro n hn
    simp at hn
    subst hn
    rfl
  | cons a t ih =>
    intro n hn
    simp only [List.length_cons] at hn
    subst hn
    rw [List.range_succ_eq_map, List.map_cons, List.map_map, List.sum_cons, List.sum_cons]
    have h2 : ((fun j => (a :: t).getD j 0) ∘ Nat.succ) = (fun j => t.getD j 0) := by
      funext j
      simp
    rw [h2, ih t.length rfl]
    rfl

theorem sum_set_le : ∀ (l : List ℚ) (c : ℕ) (v : ℚ),
    (∀ j, 0 ≤ l.getD j 0) → 0 ≤ v → (l.set c v).sum ≤ l.sum + v := by
  intro l
  induction l with
  | nil =>
    intro c v _ hv
    rw [List.set_nil]
    show (0:ℚ) ≤ 0 + v
    linarith
  | cons a t ih =>
    intro c v h hv
    cases c with
    | zero =>
      show (v :: t).sum ≤ (a :: t).sum + v
      rw [List.sum_cons, List.sum_cons]
      have ha : (0:ℚ) ≤ a := by
        have := h 0
        simpa using this
      linarith
    | succ c =>
      show (a :: t.set c v).sum ≤ (a :: t).sum + v
      rw [List.sum_cons, List.sum_cons]
      have ht : ∀ j, 0 ≤ t.getD j 0 := fun j => by
        have := h (j + 1)
        simpa using this
      have := ih c v ht hv
      linarith

theorem buildRowGo_invariant (totalIBL : ℚ) (draw : ℕ → ℚ) (htot : 0 ≤ totalIBL) :
    ∀ (chosen : List ℕ) (k : ℕ) (acc : RowAcc),
      (∀ j, 0 ≤ acc.row.getD j 0) →
      acc.row.sum ≤ acc.assigned →
      acc.assigned ≤ totalIBL →
      (∀ j, 0 ≤ (buildRowGo totalIBL draw k chosen acc).row.getD j 0) ∧
      (buildRowGo totalIBL draw k chosen acc).row.sum ≤
        (buildRowGo totalIBL draw k chosen acc).assigned ∧
      (buildRowGo totalIBL draw k chosen acc).assigned ≤ totalIBL := by
  intro chosen
  induction chosen with
  | nil => intro k acc h1 h2 h3; exact ⟨h1, h2, h3⟩
  | cons c rest ih =>
    intro k acc h1 h2 h3
    have heq : buildRowGo totalIBL draw k (c :: rest) acc =
        buildRowGo totalIBL draw (k+1) rest
          (if 0 < min (totalIBL * (draw k * (2/5) + 1/10)) (totalIBL - acc.assigned) then
            ⟨acc.row.set c (min (totalIBL * (draw k * (2/5) + 1/10)) (totalIBL - acc.assigned)),
              acc.assigned + min (totalIBL * (draw k * (2/5) + 1/10)) (totalIBL - acc.assigned)⟩
          else acc) := rfl
    rw [heq]
    by_cases hpos : 0 < min (totalIBL * (draw k * (2/5) + 1/10)) (totalIBL - acc.assigned)
    · rw [if_pos hpos]
      apply ih
      · intro j
        show 0 ≤ (acc.row.set c _).getD j 0
        rw [getD_set_cases]
        split
        · exact le_of_lt hpos
        · exact h1 j
      · show (acc.row.set c _).sum ≤ acc.assigned + _
        have hs := sum_set_le acc.row c
          (min (totalIBL * (draw k * (2/5) + 1/10)) (totalIBL - acc.assigned)) h1
          (le_of_lt hpos)
        linarith
      · show acc.assigned + _ ≤ totalIBL
        have hm := min_le_right (totalIBL * (draw k * (2/5) + 1/10)) (totalIBL - acc.assigned)
        linarith
    · rw [if_neg hpos]
      exact ih (k + 1) acc h1 h2 h3

theorem buildRowGo_length (totalIBL : ℚ) (draw : ℕ → ℚ) :
    ∀ (chosen : List ℕ) (k : ℕ) (acc : RowAcc),
      (buildRowGo totalIBL draw k chosen acc).row.length = acc.row.length := by
  intro chosen
  induction chosen with
  | nil => intro k acc; rfl
  | cons c rest ih =>
    intro k acc
    have heq : buildRowGo totalIBL draw k (c :: rest) acc =
        buildRowGo totalIBL draw (k+1) rest
          (if 0 < min (totalIBL * (draw k * (2/5) + 1/10)) (totalIBL - acc.assigned) then
            ⟨acc.row.set c (min (totalIBL * (draw k * (2/5) + 1/10)) (totalIBL - acc.assigned)),
              acc.assigned + min (totalIBL * (draw k * (2/5) + 1/10)) (totalIBL - acc.assigned)⟩
          else acc) := rfl
    rw [heq]
    split
    · rw [ih]
      exact List.length_set acc.row c _
    · exact ih (k + 1) acc

theorem buildRow_length (n : ℕ) (totalIBL : ℚ) (draw : ℕ → ℚ) (chosen : List ℕ) :
    (buildRow n totalIBL draw chosen).length = n := by
  unfold buildRow
  rw [buildRowGo_length]
  exact List.length_replicate n 0

theorem buildRow_sum_le (n : ℕ) (totalIBL : ℚ) (draw : ℕ → ℚ) (chosen : List ℕ)
    (htot : 0 ≤ totalIBL) :
    (buildRow n totalIBL draw chosen).sum ≤ totalIBL := by
  unfold buildRow
  obtain ⟨h1, h2, h3⟩ := buildRowGo_invariant totalIBL draw htot chosen 0
    ⟨List.replicate n 0, 0⟩
    (fun j => le_of_eq (getD_replicate n j).symm)
    (by
      show (List.replicate n (0:ℚ)).sum ≤ 0
      rw [List.sum_replicate]
      simp)
    htot
  exact le_trans h2 h3

theorem getD_map_range {β : Type _} (f : ℕ → β) (n i : ℕ) (d : β) (h : i < n) :
    ((List.range n).map f).getD i d = f i := by
  rw [getD_map_lt f _ i d (by simpa using h), List.get_eq_getElem, List.getElem_range]

theorem generateAdj_row (n : ℕ) (r : GenRand) (d : ℕ) (h : d < n) :
    (generateAdj n r).getD d [] =
      buildRow n (totalIBLOf r d (mkBank r d).L) (r.shareDraw d) (chosenCreditors r d) := by
  unfold generateAdj
  rw [getD_map_range _ n d [] h]

theorem generateNodes_L_interbank (n : ℕ) (r : GenRand) (i : ℕ) (h : i < n) :
    ((generateNodes n r).getD i default).L_interbank =
      totalIBLOf r i (mkBank r i).L := by
  unfold generateNodes
  rw [getD_map_range _ n i default h]

theorem phase2Loop_iterations (adj : Adj) :
    ∀ (fuel : ℕ) (st : SimState),
      (phase2Loop adj fuel st).iterations ≤ st.iterations + fuel := by
  intro fuel
  induction fuel with
  | zero =>
    intro st
    show st.iterations ≤ st.iterations + 0
    omega
  | succ fuel ih =>
    intro st
    rw [phase2Loop]
    split
    · omega
    · have h1 := ih (passStep adj st)
      have h2 : (passStep adj st).iterations = st.iterations + 1 := rfl
      omega

theorem totalIBL_nonneg (r : GenRand) (i : ℕ)
    (hx0 : 0 ≤ r.assetDraw i) (hy0 : 0 ≤ r.ratioDraw i) (hy1 : r.ratioDraw i < 1)
    (hz0 : 0 ≤ r.iblDraw i) :
    0 ≤ totalIBLOf r i (mkBank r i).L := by
  have hL : (mkBank r i).L =
      (r.assetDraw i * ( ASSETS_MAX - ASSETS_MIN) + ASSETS_MIN) -
        (r.assetDraw i * ( ASSETS_MAX - ASSETS_MIN) + ASSETS_MIN) *
          (r.ratioDraw i * ( CAPITAL_RATIO_MAX - CAPITAL_RATIO_MIN) + CAPITAL_RATIO_MIN) := rfl
  unfold totalIBLOf
  rw [hL]
  have hc1 : ( ASSETS_MAX - ASSETS_MIN : ℚ) = 4000 := by
    norm_num [ ASSETS_MAX, ASSETS_MIN]
  have hc2 : ( CAPITAL_RATIO_MAX - CAPITAL_RATIO_MIN : ℚ) = 7/100 := by
    norm_num [ CAPITAL_RATIO_MAX, CAPITAL_RATIO_MIN]
  have hc3 : ( CAPITAL_RATIO_MIN : ℚ) = 2/25 := rfl
  have hc4 : ( ASSETS_MIN : ℚ) = 1000 := rfl
  rw [hc1, hc2, hc3, hc4]
  have hA : (0:ℚ) ≤ r.assetDraw i * 4000 + 1000 := by nlinarith
  have hr1 : r.ratioDraw i * (7/100) + 2/25 ≤ 1 := by nlinarith
  have hLnn : (0:ℚ) ≤ (r.assetDraw i * 4000 + 1000) * (1 - (r.ratioDraw i * (7/100) + 2/25)) :=
    mul_nonneg hA (by linarith)
  have hfrac : (0:ℚ) ≤ 3/20 + r.iblDraw i * (3/20) := by nlinarith
  nlinarith [mul_nonneg hLnn hfrac]

-- =========================================================
-- Claim theorems
-- =========================================================

/-- C1: in the spec's targeted-shock scenario (five banks, bank 0 owing
its whole interbank liability — equal to its `L` — to bank 1 alone, banks
2–4 unexposed to bank 0), the code does drive bank 0 to Failed with
debtRank 1 in Phase 1 and leaves banks 2–4 at debtRank 0, but bank 1 ends
the run at debtRank 0 as well: the first Phase-2 pass propagates nothing,
because `previousRanks` is initialized to the Phase-1 ranks so every
debtor delta is zero. This contradicts the claimed strictly positive
debtRank increase for bank 1. -/
theorem targeted_shock_no_propagation :
    adjGet scen5.adj 0 1 = (scen5.nodes.getD 0 default).L_interbank ∧
    (scen5.nodes.getD 0 default).L_interbank = (scen5.nodes.getD 0 default).L ∧
    ((runSimulation (Shock.targeted 0) scen5).nodes.getD 0 default).debtRank = 1 ∧
    ((runSimulation (Shock.targeted 0) scen5).nodes.getD 0 default).isFailed = true ∧
    ((runSimulation (Shock.targeted 0) scen5).nodes.getD 1 default).debtRank = 0 ∧
    ((runSimulation (Shock.targeted 0) scen5).nodes.getD 2 default).debtRank = 0 ∧
    ((runSimulation (Shock.targeted 0) scen5).nodes.getD 3 default).debtRank = 0 ∧
    ((runSimulation (Shock.targeted 0) scen5).nodes.getD 4 default).debtRank = 0 := by
  have h : (runSimulation (Shock.targeted 0) scen5).nodes =
      [{ mkScenBank 0 900 0 1000 with E := 0, isFailed := true, debtRank := 1, stressLevel := 2 },
       mkScenBank 1 0 900 100, mkScenBank 2 0 0 1000,
       mkScenBank 3 0 0 1000, mkScenBank 4 0 0 1000] := by
    show (runSimState (Shock.targeted 0) scen5).nodes = _
    rw [runSimState_aligned _ _ (by decide)]
    norm_num [scen5, mkScenBank, phase1Nodes, phase1Go, applyShock, classify1, resetBank,
      clamp, reEvaluate]
  rw [h]
  exact ⟨rfl, rfl, rfl, rfl, rfl, rfl, rfl, rfl⟩

/-- C2: for every network snapshot whose node ids equal their positions
and every Phase-1 outcome, the Phase-2 loop converges on its very first
pass with zero propagation: every debtor delta
`currentRanks[i] − previousRanks[i]` is 0, the loop stops after one
iteration with the converged flag set, and every bank's final state is
its Phase-1 state passed once through the end-of-pass re-evaluation — its
debtRank survives unchanged unless the resulting capital
`E0 × (1 − debtRank)` is ≤ 0 or `debtRank ≥ 0.9999`, in which case the
bank is forced to debtRank 1, Failed, `E = 0`. -/
theorem phase2_first_pass_fixed_point (shock : Shock) (net : Network)
    (hid : ∀ k, k < net.nodes.length → (net.nodes.getD k default).id = k) :
    runSimState shock net =
      ⟨(phase1Nodes shock (net.nodes.map resetBank)).map reEvaluate,
       (phase1Nodes shock (net.nodes.map resetBank)).map (fun n => n.debtRank),
       true, 1⟩ ∧
    (∀ i, i < (phase1Nodes shock (net.nodes.map resetBank)).length →
      ((phase1Nodes shock (net.nodes.map resetBank)).map (fun n => n.debtRank)).getD i 0 -
        (buildInitialRanks (phase1Nodes shock (net.nodes.map resetBank))).getD i 0 = 0) ∧
    (∀ k, k < (phase1Nodes shock (net.nodes.map resetBank)).length →
      (((phase1Nodes shock (net.nodes.map resetBank)).getD k default).E_initial *
          (1 - ((phase1Nodes shock (net.nodes.map resetBank)).getD k default).debtRank) ≤ 0 ∨
        (9999/10000 : ℚ) ≤ ((phase1Nodes shock (net.nodes.map resetBank)).getD k default).debtRank →
          ((runSimState shock net).nodes.getD k default).debtRank = 1 ∧
          ((runSimState shock net).nodes.getD k default).isFailed = true ∧
          ((runSimState shock net).nodes.getD k default).E = 0) ∧
      (¬ (((phase1Nodes shock (net.nodes.map resetBank)).getD k default).E_initial *
            (1 - ((phase1Nodes shock (net.nodes.map resetBank)).getD k default).debtRank) ≤ 0 ∨
          (9999/10000 : ℚ) ≤ ((phase1Nodes shock (net.nodes.map resetBank)).getD k default).debtRank) →
          ((runSimState shock net).nodes.getD k default).debtRank =
            ((phase1Nodes shock (net.nodes.map resetBank)).getD k default).debtRank)) := by
  have hmain := runSimState_aligned shock net hid
  refine ⟨hmain, fun i hi => by rw [phase1_ranks_delta_zero shock net hid i hi, sub_self], ?_⟩
  intro k hk
  have hq : (runSimState shock net).nodes.getD k default =
      reEvaluate ((phase1Nodes shock (net.nodes.map resetBank)).getD k default) := by
    rw [hmain]
    show ((phase1Nodes shock (net.nodes.map resetBank)).map reEvaluate).getD k default = _
    rw [getD_map_lt _ _ k default hk, ← List.getD_eq_get _ default hk]
  constructor
  · intro hforced
    rw [hq]
    exact reEvaluate_forced _ hforced
  · intro hunforced
    rw [hq]
    exact reEvaluate_unforced _ hunforced

/-- Witness for C2 at the concrete five-bank scenario. -/
theorem phase2_first_pass_fixed_point_witness :
    (runSimState (Shock.targeted 0) scen5).hasConverged = true ∧
    (runSimState (Shock.targeted 0) scen5).iterations = 1 := by
  have h := phase2_first_pass_fixed_point (Shock.targeted 0) scen5 (by decide)
  rw [h.1]
  exact ⟨rfl, rfl⟩

/-- C3: debtRank is monotonically non-decreasing per bank. Whenever every
rank entering a pass is at most 1 (which Phase 1 establishes), the pass
update `newRank = clamp(debtRank + (1 − debtRank) × propagated, debtRank,
1)` together with the end-of-pass re-evaluation never lowers any bank's
debtRank; the same holds across any number of passes of the Phase-2
loop, and across a whole run relative to the Phase-1 ranks, for every
shock. -/
theorem debtRank_monotone (adj : Adj) (st : SimState) (shock : Shock) (net : Network)
    (hle1 : ∀ k, (st.nodes.getD k default).debtRank ≤ 1) :
    (∀ k, (st.nodes.getD k default).debtRank ≤
      ((passStep adj st).nodes.getD k default).debtRank) ∧
    (∀ fuel k, (st.nodes.getD k default).debtRank ≤
      ((phase2Loop adj fuel st).nodes.getD k default).debtRank) ∧
    (∀ k, ((phase1Nodes shock (net.nodes.map resetBank)).getD k default).debtRank ≤
      ((runSimState shock net).nodes.getD k default).debtRank) := by
  refine ⟨(passStep_mono adj st hle1).2.1,
    fun fuel => (phase2Loop_mono adj fuel st hle1).1, ?_⟩
  intro k
  exact (phase2Loop_mono net.adj MAX_ITERATIONS
    ⟨phase1Nodes shock (net.nodes.map resetBank),
      buildInitialRanks (phase1Nodes shock (net.nodes.map resetBank)), false, 0⟩
    (phase1_debtRank_le_one shock _)).1 k

/-- Witness for C3 at the five-bank scenario with all ranks 0. -/
theorem debtRank_monotone_witness :
    ((⟨scen5.nodes, [], false, 0⟩ : SimState).nodes.getD 0 default).debtRank ≤
      ((passStep scen5.adj ⟨scen5.nodes, [], false, 0⟩).nodes.getD 0 default).debtRank := by
  have hle : ∀ k, ((⟨scen5.nodes, [], false, 0⟩ : SimState).nodes.getD k default).debtRank ≤ 1 := by
    intro k
    have h0 : (scen5.nodes.getD k default).debtRank = 0 := by
      by_cases hk : k < 5
      · interval_cases k <;> rfl
      · rw [List.getD_eq_default _ _ (show scen5.nodes.length ≤ k by
          rw [show scen5.nodes.length = 5 from rfl]; omega)]
        rfl
    show (scen5.nodes.getD k default).debtRank ≤ 1
    rw [h0]
    norm_num
  exact (debtRank_monotone scen5.adj ⟨scen5.nodes, [], false, 0⟩ (Shock.targeted 0) scen5
    hle).1 0

/-- C4: after any pass, the converged flag is set if and only if every
bank's rank delta of that pass (the skipped, already-failed banks having
delta 0) is at most `DEBT_RANK_TOLERANCE`; the loop tests the flag only at
a pass boundary, so a converged run still finishes that pass's rank
updates and the subsequent capital/status re-evaluation — the pass's
nodes are always the creditor-loop output mapped through `reEvaluate`. -/
theorem convergence_criterion (adj : Adj) (st : SimState) :
    ((passStep adj st).hasConverged = true ↔
      ∀ j, j < st.nodes.length →
        |passNewRank adj st j - (st.nodes.getD j default).debtRank| ≤ DEBT_RANK_TOLERANCE) ∧
    (∀ fuel, phase2Loop adj (fuel + 1) st =
      if st.hasConverged then st else phase2Loop adj fuel (passStep adj st)) ∧
    (passStep adj st).nodes = (creditorLoop adj st).nodes.map reEvaluate :=
  ⟨passStep_hasConverged_iff adj st, fun _ => rfl, rfl⟩

/-- C5: a run never alters the snapshot data. The returned adjacency is
the input adjacency, every output bank agrees with its input bank on all
snapshot fields (id, name, A, E_initial, L, L_interbank, A_interbank,
A_external), the run's outcome depends only on those snapshot fields —
two node lists agreeing on them produce identical results, because the
working copy re-initializes E, isFailed, debtRank and stressLevel from
E_initial — and hence a second run on the nodes left by a first run
equals the second run on the original snapshot. -/
theorem runSimulation_frame (shock shock2 : Shock) (adj : Adj) (ns1 ns2 : List Bank)
    (hlen : ns1.length = ns2.length)
    (hst : ∀ k, stableEq (ns1.getD k default) (ns2.getD k default)) :
    (runSimulation shock ⟨ns1, adj⟩).adj = adj ∧
    (runSimulation shock ⟨ns1, adj⟩).nodes.length = ns1.length ∧
    (∀ k, stableEq ((runSimulation shock ⟨ns1, adj⟩).nodes.getD k default)
      (ns1.getD k default)) ∧
    runSimulation shock ⟨ns1, adj⟩ = runSimulation shock ⟨ns2, adj⟩ ∧
    runSimulation shock2 ⟨(runSimulation shock ⟨ns1, adj⟩).nodes, adj⟩ =
      runSimulation shock2 ⟨ns1, adj⟩ := by
  obtain ⟨hl, hs⟩ := runSim_stable shock ⟨ns1, adj⟩
  exact ⟨rfl, hl, hs, runSimulation_deterministic shock adj ns1 ns2 hlen hst,
    runSimulation_deterministic shock2 adj _ ns1 hl hs⟩

/-- Witness for C5 at the five-bank scenario. -/
theorem runSimulation_frame_witness :
    (runSimulation (Shock.targeted 0) ⟨scen5.nodes, scen5.adj⟩).adj = scen5.adj :=
  (runSimulation_frame (Shock.targeted 0) Shock.econWide scen5.adj scen5.nodes
    scen5.nodes rfl (fun _ => stableEq_refl _)).1

/-- C6 counterexample: the bank of `net1` (E0 = 100) is selected by the
probability-0.10 draw, its capital is reduced by `E0 × 0.8` to 20 > 0, and
it ends Phase 1 *not* failed: isFailed is false, stressLevel is Stressed
(1), debtRank is 0.8 — contradicting the claim that every selected bank
ends Phase 1 marked Failed with debtRank 1. -/
theorem random_shock_survives_counterexample :
    ((phase1Nodes (Shock.random (fun _ => true)) (net1.nodes.map resetBank)).getD 0
        default).isFailed = false ∧
    ((phase1Nodes (Shock.random (fun _ => true)) (net1.nodes.map resetBank)).getD 0
        default).stressLevel = 1 ∧
    ((phase1Nodes (Shock.random (fun _ => true)) (net1.nodes.map resetBank)).getD 0
        default).debtRank = 4/5 ∧
    ((phase1Nodes (Shock.random (fun _ => true)) (net1.nodes.map resetBank)).getD 0
        default).E = 20 := by
  norm_num [net1, mkScenBank, phase1Nodes, phase1Go, applyShock, classify1, resetBank, clamp]

/-- C6 amended: every bank selected by the probability-0.10 draw whose
initial capital is positive has its capital reduced by `E0 × 0.8` (to
`E0 × 0.2 > 0`) and ends Phase 1 Stressed with debtRank 0.8, not Failed. -/
theorem random_shock_stressed (node : Bank) (idx : ℕ) (draw : ℕ → Bool)
    (hE0 : 0 < node.E_initial) (hdraw : draw idx = true) :
    (classify1 (applyShock (Shock.random draw) idx (resetBank node))).E =
      node.E_initial * (1/5) ∧
    (classify1 (applyShock (Shock.random draw) idx (resetBank node))).isFailed = false ∧
    (classify1 (applyShock (Shock.random draw) idx (resetBank node))).debtRank = 4/5 ∧
    (classify1 (applyShock (Shock.random draw) idx (resetBank node))).stressLevel = 1 := by
  have hne : node.E_initial ≠ 0 := ne_of_gt hE0
  have hshock : applyShock (Shock.random draw) idx (resetBank node) =
      { resetBank node with E := node.E_initial * (1/5) } := by
    show (if draw idx then
        { resetBank node with
          E := (resetBank node).E - (resetBank node).E_initial * (4/5) }
      else resetBank node) = _
    rw [if_pos hdraw]
    show ({ resetBank node with E := node.E_initial - node.E_initial * (4/5) } : Bank) = _
    have : node.E_initial - node.E_initial * (4/5) = node.E_initial * (1/5) := by ring
    rw [this]
  rw [hshock]
  unfold classify1
  dsimp only
  have hpos : ¬ node.E_initial * (1/5) ≤ 0 := by
    intro hc
    nlinarith
  rw [if_neg hpos]
  have hdiv : node.E_initial * (1/5) / node.E_initial = 1/5 := by
    field_simp
    ring
  have hclamp : clamp (1 - node.E_initial * (1/5) / node.E_initial) 0 1 = 4/5 := by
    rw [hdiv]
    norm_num [clamp, max_def, min_def]
  have hE1 : (resetBank node).E_initial = node.E_initial := rfl
  rw [hE1, hclamp, if_pos (by norm_num : (1:ℚ)/2 ≤ 4/5)]
  exact ⟨rfl, rfl, rfl, rfl⟩

/-- Witness for C6's amended claim at a concrete bank with E0 = 100. -/
theorem random_shock_stressed_witness :
    (classify1 (applyShock (Shock.random (fun _ => true)) 0
      (resetBank (mkScenBank 0 0 0 1000)))).debtRank = 4/5 :=
  (random_shock_stressed (mkScenBank 0 0 0 1000) 0 (fun _ => true)
    (by norm_num [mkScenBank]) rfl).2.2.1

/-- C7: in the final simulation result, every bank with debtRank 1 is
Failed with capital 0, for every network and shock: at least one pass
always runs, the final nodes are the last pass's creditor-loop output
mapped through `reEvaluate`, and `reEvaluate` only produces debtRank 1
through its forced-failure branch, which also sets isFailed and `E = 0`. -/
theorem debtRank_one_failed (shock : Shock) (net : Network) (k : ℕ)
    (hrank : ((runSimulation shock net).nodes.getD k default).debtRank = 1) :
    ((runSimulation shock net).nodes.getD k default).isFailed = true ∧
    ((runSimulation shock net).nodes.getD k default).E = 0 := by
  obtain ⟨ys, hys⟩ := runSim_nodes_post_reEvaluate shock net
  by_cases hk : k < ys.length
  · rw [hys, getD_map_bank reEvaluate ys k hk] at hrank ⊢
    exact reEvaluate_rank_one _ hrank
  · rw [hys, List.getD_eq_default _ _ (by rw [List.length_map]; omega)] at hrank
    have : (default : Bank).debtRank = 0 := rfl
    rw [this] at hrank
    norm_num at hrank

/-- Witness for C7: the targeted bank of the one-bank network ends at
debtRank 1, and the theorem yields its failure and zero capital. -/
theorem debtRank_one_failed_witness :
    ((runSimulation (Shock.targeted 0) net1).nodes.getD 0 default).isFailed = true ∧
    ((runSimulation (Shock.targeted 0) net1).nodes.getD 0 default).E = 0 := by
  apply debtRank_one_failed
  have h : (runSimulation (Shock.targeted 0) net1).nodes =
      [{ mkScenBank 0 0 0 1000 with E := 0, isFailed := true, debtRank := 1, stressLevel := 2 }] := by
    show (runSimState (Shock.targeted 0) net1).nodes = _
    rw [runSimState_aligned _ _ (by decide)]
    norm_num [net1, mkScenBank, phase1Nodes, phase1Go, applyShock, classify1, resetBank,
      clamp, reEvaluate]
  rw [h]
  rfl

/-- C8: for every generated network under valid draws and every debtor i,
the sum of row i of the adjacency matrix is at most that bank's
L_interbank: every share is clamped by `min(share, totalIBL − assigned)`
and written only when positive, so the cumulative assignment — and hence
the row sum — never exceeds the debtor's interbank liability (exactly, in
rational arithmetic; any shortfall is simply left unassigned). -/
theorem row_sum_le_interbank_liability (n : ℕ) (r : GenRand) (hv : ValidGenRand n r)
    (i : ℕ) (hi : i < n) :
    rowSum (generateNetwork n r).adj n i ≤
      ((generateNetwork n r).nodes.getD i default).L_interbank := by
  obtain ⟨hx, hy, hz, _, _, _⟩ := hv
  have htot : 0 ≤ totalIBLOf r i (mkBank r i).L :=
    totalIBL_nonneg r i (hx i).1 (hy i).1 (hy i).2 (hz i).1
  have hlib : ((generateNetwork n r).nodes.getD i default).L_interbank =
      totalIBLOf r i (mkBank r i).L := generateNodes_L_interbank n r i hi
  rw [hlib]
  unfold rowSum
  have hrow : (generateNetwork n r).adj.getD i [] =
      buildRow n (totalIBLOf r i (mkBank r i).L) (r.shareDraw i) (chosenCreditors r i) :=
    generateAdj_row n r i hi
  have hmapeq : (List.range n).map (fun j => adjGet (generateNetwork n r).adj i j) =
      (List.range n).map (fun j =>
        (buildRow n (totalIBLOf r i (mkBank r i).L) (r.shareDraw i)
          (chosenCreditors r i)).getD j 0) := by
    apply List.map_congr_left
    intro j _
    unfold adjGet
    rw [hrow]
  rw [hmapeq, sum_getD_range _ n (buildRow_length n _ _ _)]
  exact buildRow_sum_le n _ _ _ htot

/-- Witness for C8 at a three-bank network with all draws 1/2. -/
theorem row_sum_le_interbank_liability_witness :
    rowSum (generateNetwork 3 halfRand).adj 3 0 ≤
      ((generateNetwork 3 halfRand).nodes.getD 0 default).L_interbank := by
  apply row_sum_le_interbank_liability 3 halfRand ?_ 0 (by omega)
  refine ⟨fun i => ⟨by norm_num [halfRand], by norm_num [halfRand]⟩,
    fun i => ⟨by norm_num [halfRand], by norm_num [halfRand]⟩,
    fun d => ⟨by norm_num [halfRand], by norm_num [halfRand]⟩,
    fun d => ⟨by norm_num [halfRand], by norm_num [halfRand]⟩,
    fun d k => ⟨by norm_num [halfRand], by norm_num [halfRand]⟩, ?_⟩
  intro d
  have hord : halfRand.creditorOrder d = (List.range 3).filter (fun c => c ≠ d) := rfl
  constructor
  · rw [hord]
    exact (List.nodup_range 3).filter _
  · intro c hc
    rw [hord, List.mem_filter] at hc
    obtain ⟨hc1, hc2⟩ := hc
    rw [List.mem_range] at hc1
    exact ⟨hc1, by simpa using hc2⟩

/-- C9 counterexample: with `N = 1 < 2` the generator does not reject
with a configuration error — it is total and returns a complete one-bank
network with an all-zero 1×1 adjacency matrix. -/
theorem generate_no_rejection_counterexample :
    (generateNetwork 1 soloRand).nodes.length = 1 ∧
    (generateNetwork 1 soloRand).adj = [[0]] := by
  constructor
  · rfl
  · rfl

/-- C9 amended: network generation is total for every bank count N —
there is no validation and no error path. Under valid draws it returns a
full network with N banks and an N×N adjacency for every N, and for
N < 2 (where no potential creditors exist) the adjacency is all zeros
instead of the claimed configuration-error rejection. -/
theorem generate_total (n : ℕ) (r : GenRand) (hv : ValidGenRand n r) :
    (generateNetwork n r).nodes.length = n ∧
    (generateNetwork n r).adj.length = n ∧
    (∀ d, d < n → ((generateNetwork n r).adj.getD d []).length = n) ∧
    (n < 2 → ∀ i j, adjGet (generateNetwork n r).adj i j = 0) := by
  obtain ⟨_, _, _, _, _, hord⟩ := hv
  refine ⟨?_, ?_, ?_, ?_⟩
  · show (generateNodes n r).length = n
    unfold generateNodes
    rw [List.length_map, List.length_range]
  · show (generateAdj n r).length = n
    unfold generateAdj
    rw [List.length_map, List.length_range]
  · intro d hd
    show ((generateAdj n r).getD d []).length = n
    rw [generateAdj_row n r d hd]
    exact buildRow_length n _ _ _
  · intro h2 i j
    unfold adjGet
    by_cases hi : i < n
    · rw [show (generateNetwork n r).adj.getD i [] = (generateAdj n r).getD i [] from rfl,
        generateAdj_row n r i hi]
      have hord' : r.creditorOrder i = [] := by
        cases he : r.creditorOrder i with
        | nil => rfl
        | cons c l2 =>
          exfalso
          have hc : c ∈ r.creditorOrder i := by
            rw [he]
            exact List.mem_cons_self c l2
          obtain ⟨hcn, hcd⟩ := (hord i).2 c hc
          omega
      have hch : chosenCreditors r i = [] := by
        unfold chosenCreditors
        rw [hord']
        rfl
      rw [hch]
      show ((buildRowGo _ _ 0 [] ⟨List.replicate n 0, 0⟩).row).getD j 0 = 0
      exact getD_replicate n j
    · have hadj0 : (generateNetwork n r).adj.getD i [] = [] :=
        List.getD_eq_default _ _ (by
          show (generateAdj n r).length ≤ i
          unfold generateAdj
          rw [List.length_map, List.length_range]
          omega)
      rw [hadj0]
      rfl

/-- Witness for C9's amended claim at N = 1 with the solo draws. -/
theorem generate_total_witness :
    (generateNetwork 1 soloRand).adj.length = 1 ∧
    adjGet (generateNetwork 1 soloRand).adj 0 0 = 0 := by
  have hv : ValidGenRand 1 soloRand :=
    ⟨fun i => ⟨by norm_num [soloRand], by norm_num [soloRand]⟩,
     fun i => ⟨by norm_num [soloRand], by norm_num [soloRand]⟩,
     fun d => ⟨by norm_num [soloRand], by norm_num [soloRand]⟩,
     fun d => ⟨by norm_num [soloRand], by norm_num [soloRand]⟩,
     fun d k => ⟨by norm_num [soloRand], by norm_num [soloRand]⟩,
     fun d => ⟨List.nodup_nil, fun c hc => absurd hc (List.not_mem_nil c)⟩⟩
  have h := generate_total 1 soloRand hv
  exact ⟨h.2.1, h.2.2.2 (by omega) 0 0⟩

/-- C10: Phase 2 always terminates at or before the iteration cap: the
loop consumes bounded fuel, a run's final iteration count is at most
`MAX_ITERATIONS` (100), and a full result is always produced — one node
record per input bank, with the adjacency passed through — whether or not
the tolerance was met. -/
theorem phase2_terminates_within_cap (shock : Shock) (net : Network) :
    (runSimState shock net).iterations ≤ MAX_ITERATIONS ∧
    (runSimulation shock net).nodes.length = net.nodes.length ∧
    (runSimulation shock net).adj = net.adj := by
  refine ⟨?_, (runSim_stable shock net).1, rfl⟩
  have h := phase2Loop_iterations net.adj MAX_ITERATIONS
    ⟨phase1Nodes shock (net.nodes.map resetBank),
      buildInitialRanks (phase1Nodes shock (net.nodes.map resetBank)), false, 0⟩
  simpa using h

end StressTester
